import Mathlib

/-!
Verification of the backup/restore orchestrator of the ResearchRepo API
(`routes/backup.py`) against its natural-language specification.

The Python source is shallowly embedded: the catalog is a list of records,
timestamps are naturals (the source derives its ids from second-granularity
timestamps, so equal naturals model equal formatted seconds), external
effects (the PostgreSQL utilities, the filesystem, the service controller)
are modelled as boolean/functional inputs describing their outcomes, and
each route handler becomes a pure function from those inputs to a result
plus the successor system state.
-/

namespace ResearchRepo

/-- The Python enum `BackupType` with members `FULL` (value "FULL") and
`INCREMENTAL` (value "INCR"). -/
inductive BackupType where
  | FULL
  | INCREMENTAL
  deriving DecidableEq, Repr

/-- The `value` attribute of the enum members. -/
def BackupType.value : BackupType → String
  | .FULL => "FULL"
  | .INCREMENTAL => "INCR"

/-- One row of the `Backup` ORM model, with exactly the columns the route
code reads or writes (`backup_id`, `backup_type`, `backup_date`,
`timeline_id`, the two artifact locations, `total_size`,
`parent_backup_id`, `wal_lsn`).  Dates are modelled as naturals at second
granularity. -/
structure BackupRecord where
  backup_id : String
  backup_type : BackupType
  backup_date : Nat
  timeline_id : Nat
  database_backup_location : String
  files_backup_location : String
  total_size : Nat
  parent_backup_id : Option String := none
  wal_lsn : Option String := none
  deriving DecidableEq, Repr

/-- The function `generate_backup_id`: the id is the type tag plus the creation
timestamp formatted at second granularity (`BK_{type}_%Y%m%d_%H%M%S`);
two calls in the same second with the same type produce the same id. -/
def generate_backup_id (backup_type : BackupType) (now : Nat) : String :=
  "BK_" ++ backup_type.value ++ "_" ++ toString now

/-- The lookup `Backup.query.filter_by(backup_id=id).first()`. -/
def findById (cat : List BackupRecord) (id : String) : Option BackupRecord :=
  cat.find? (fun r => r.backup_id = id)

/-- The query `.order_by(Backup.backup_date.desc()).first()`: a record of maximal
`backup_date`, or `none` on the empty list. -/
def latestIn : List BackupRecord → Option BackupRecord
  | [] => none
  | r :: rs =>
    match latestIn rs with
    | none => some r
    | some b => if b.backup_date < r.backup_date then some r else some b

/-- The query `Backup.query.filter_by(timeline_id=tl).order_by(backup_date.desc()).first()`. -/
def latestInTimeline (cat : List BackupRecord) (tl : Nat) : Option BackupRecord :=
  latestIn (cat.filter (fun r => r.timeline_id = tl))

/-- The query `Backup.query.order_by(Backup.backup_date.desc()).first()`. -/
def latestOverall (cat : List BackupRecord) : Option BackupRecord :=
  latestIn cat

/-- A filesystem entry under the content tree: path relative to the walk
root, and its modification time. -/
structure FsEntry where
  path : String
  mtime : Nat
  deriving DecidableEq, Repr

/-- The join `os.path.join` of the walk root and a relative path. -/
def joinPath (root rel : String) : String := root ++ "/" ++ rel

/-- The detector `get_changed_files(repository_dir, last_backup_date)`: walk the tree
and collect every file whose `os.path.getmtime` is strictly greater than
`last_backup_date.timestamp()`.  The collected entries are
`os.path.join(root, file)` — full paths that still carry the
`repository_dir` prefix, not paths relative to it. -/
def get_changed_files (repository_dir : String) (tree : List FsEntry)
    (last_backup_date : Nat) : List String :=
  (tree.filter (fun e => last_backup_date < e.mtime)).map
    (fun e => joinPath repository_dir e.path)

/-! Part: Chain resolution (`restore_backup`, incremental branch)

The source walks `parent_backup_id` pointers from the target to the root:

    backups_to_restore = []
    current_backup = target_backup
    while current_backup:
        backups_to_restore.insert(0, current_backup)
        if current_backup.parent_backup_id:
            current_backup = Backup.query.filter_by(
                backup_id=current_backup.parent_backup_id).first()
        else:
            break

then checks `backups_to_restore[0].backup_type == FULL` and raises
`"No base full backup found in the backup chain"` otherwise.  The `while`
loop is embedded with explicit fuel; a fuel of at least the walk length
reproduces the loop exactly, and exhausted fuel models a cut-off of the
(possible, on a cyclic catalog) divergence. -/

/-- The `while current_backup:` walk.  `acc` is `backups_to_restore`
(the walk inserts at the front, so the accumulator is root-first). -/
def chainWalk (cat : List BackupRecord) : Nat → BackupRecord → List BackupRecord → List BackupRecord
  | 0, _, acc => acc
  | fuel + 1, current, acc =>
    match current.parent_backup_id with
    | none => current :: acc
    | some pid =>
      match findById cat pid with
      | none => current :: acc
      | some p => chainWalk cat fuel p (current :: acc)

/-- Chain resolution followed by the base-full-backup check
(`if not backups_to_restore or backups_to_restore[0].backup_type != FULL`). -/
def resolveChain (cat : List BackupRecord) (fuel : Nat) (target : BackupRecord) :
    Except String (List BackupRecord) :=
  match (chainWalk cat fuel target []).head? with
  | none => .error "No base full backup found in the backup chain"
  | some r =>
    if r.backup_type = BackupType.FULL then .ok (chainWalk cat fuel target [])
    else .error "No base full backup found in the backup chain"

/-- `Reaches cat x r`: `r` lies on the parent chain of `x` (it is `x`
itself or an iterated parent of `x` resolved through the catalog). -/
inductive Reaches (cat : List BackupRecord) : BackupRecord → BackupRecord → Prop where
  | refl (r : BackupRecord) : Reaches cat r r
  | step {a b c : BackupRecord} {pid : String} (h : Reaches cat a b)
      (hp : b.parent_backup_id = some pid) (hf : findById cat pid = some c) :
      Reaches cat a c

/-! Part: The incremental restore branch as an artifact-application plan

For an INCREMENTAL target, `restore_backup` (after resolving the chain
and checking `base.tar.gz` / `pg_wal.tar.gz` of the root) extracts the
base image and WAL archive of the root, then loops over the whole chain
extracting the `wal.xz` of each INCREMENTAL member into `pg_wal` under the
filename recorded in its `backup.info`, and — only after connectivity is
verified — extracts the `repository_backup.tar.xz` of the *target* record
member-by-member onto the content tree.  The plan below records which
artifacts of which records the branch applies. -/

/-- Outcomes of the filesystem probes the incremental restore branch
performs (`os.path.exists` on the various artifact files, and the
`wal_file=` line parsed from each `backup.info`). -/
structure RestoreFsEnv where
  hasBaseArtifacts : String → Bool
  hasWalArchive : String → Bool
  walFileName : String → Option String
  hasFilesArchive : String → Bool

/-- Which artifacts the incremental restore branch applies: the resolved
chain, the `(backup_id, wal filename)` pairs extracted into `pg_wal` in
loop order, and the ids whose repository archives are extracted onto the
content tree. -/
structure IncrRestorePlan where
  chain : List BackupRecord
  walExtracted : List (String × String)
  filesApplied : List String
  deriving DecidableEq, Repr

/-- The artifacts applied once a chain is in hand: the loop over
`backups_to_restore` extracting the `wal.xz` of each INCREMENTAL under the
`wal_file=` name from its `backup.info`, and — after verification — the
extraction of the `repository_backup.tar.xz` of the target only. -/
def planFromChain (env : RestoreFsEnv) (target : BackupRecord)
    (chain : List BackupRecord) : Except String IncrRestorePlan :=
  match chain.head? with
  | none => .error "No base full backup found in the backup chain"
  | some base =>
    if env.hasBaseArtifacts base.backup_id = true then
      .ok { chain := chain
          , walExtracted := chain.filterMap (fun b =>
              if b.backup_type = BackupType.INCREMENTAL ∧ env.hasWalArchive b.backup_id = true then
                (env.walFileName b.backup_id).map (fun w => (b.backup_id, w))
              else none)
          , filesApplied :=
              if env.hasFilesArchive target.backup_id = true then [target.backup_id] else [] }
    else .error "Required backup files not found"

/-- The artifact-application plan of the incremental restore branch of
`restore_backup`: resolve the chain, check the base artifacts of the root,
extract the WAL delta of each chain INCREMENTAL under its recorded original
filename, and extract only the repository archive of the target onto the
content tree. -/
def incrementalRestorePlan (cat : List BackupRecord) (fuel : Nat) (env : RestoreFsEnv)
    (target : BackupRecord) : Except String IncrRestorePlan :=
  match resolveChain cat fuel target with
  | .error e => .error e
  | .ok chain => planFromChain env target chain

/-- Every id some artifact of which the incremental restore branch
touches: the root whose base image is extracted, the WAL-delta sources,
and the content-archive sources. -/
def IncrRestorePlan.appliedIds (plan : IncrRestorePlan) : List String :=
  (plan.chain.map (fun r => r.backup_id)).take 1 ++
    plan.walExtracted.map Prod.fst ++ plan.filesApplied

/-- Writing one member of the repository archive of the target:
`open(path, "wb")` under `repository_dir` overwrites the file at that relative path
or creates it, and removes nothing. -/
def writeFile (tree : List (String × String)) (p c : String) : List (String × String) :=
  if (tree.find? (fun e => e.1 = p)).isSome then
    tree.map (fun e => if e.1 = p then (p, c) else e)
  else tree ++ [(p, c)]

/-- The member loop of the target-archive extraction (lines 813-820):
each member is written onto the content tree in order. -/
def applyArchive (tree : List (String × String)) (members : List (String × String)) :
    List (String × String) :=
  members.foldl (fun t m => writeFile t m.1 m.2) tree

/-! Part: Backup creation (`create_backup`) -/

/-- The failure conditions of `create_backup`, in the order the handler
can hit them.  In the source all of these surface as an exception (or an
early 4xx return for `noBaseBackup`) whose handler deletes `backup_dir`
and answers with the error text. -/
inductive BackupError where
  | noBaseBackup
  | pgdataMissing
  | noPreviousBackup
  | noChanges
  | noWalFiles
  | engineFailure
  | archiveFailure
  | duplicateId
  | chainIntegrity
  | commitFailure
  | auditFailure
  deriving DecidableEq, Repr

/-- The mutable state `create_backup` touches: the catalog, the set of
artifact directories under `backups/` (by backup id) and the set of ids
whose `files/repository_backup.tar.xz` content archive exists. -/
structure SysState where
  catalog : List BackupRecord
  dirs : List String
  filesArtifacts : List String
  deriving DecidableEq, Repr

/-- The `shutil.rmtree(backup_dir, ignore_errors=True)` of the failure handler:
the artifact directory of `id` and everything under it disappears. -/
def cleanupDir (st : SysState) (id : String) : SysState :=
  { st with dirs := st.dirs.filter (fun d => d ≠ id)
          , filesArtifacts := st.filesArtifacts.filter (fun d => d ≠ id) }

/-- The call `os.makedirs(backup_dir, exist_ok=True)`: the artifact directory for
`id` is created, or silently reused if a backup with the same id already
put one there. -/
def addDir (st : SysState) (id : String) : SysState :=
  { st with dirs := if st.dirs.contains id then st.dirs else id :: st.dirs }

/-- Writing `files/repository_backup.tar.xz` when the guard holds. -/
def addFiles (st : SysState) (id : String) (present : Bool) : SysState :=
  if present then { st with filesArtifacts := id :: st.filesArtifacts } else st

/-- Modelled from the spec: the `Backup` ORM model declaring the
constraints the database enforces at `db.session.commit()` is not among
the analysed sources; §4.2 of the spec describes `create(record)` as
failing with `DuplicateIdError` if the id exists, failing with
`ChainIntegrityError` if the record is INCREMENTAL and no record with id
`parent_backup_id` exists in the same `timeline_id`, and otherwise
persisting atomically. -/
def catalogCreate (cat : List BackupRecord) (r : BackupRecord) :
    Except BackupError (List BackupRecord) :=
  if (findById cat r.backup_id).isSome then .error .duplicateId
  else
    match r.backup_type, r.parent_backup_id with
    | BackupType.INCREMENTAL, none => .error .chainIntegrity
    | BackupType.INCREMENTAL, some pid =>
      match findById cat pid with
      | some p => if p.timeline_id = r.timeline_id then .ok (cat ++ [r]) else .error .chainIntegrity
      | none => .error .chainIntegrity
    | BackupType.FULL, _ => .ok (cat ++ [r])

/-- Outcomes of the external steps of the FULL branch of `create_backup`:
the exit status of `pg_basebackup`, whether `research_repository` exists,
whether the tar/lzma archiving raises, the artifact size sum, whether
the infrastructure of `db.session.commit()` succeeds, and whether
`log_audit_trail` succeeds. -/
structure CreateEnv where
  engineOk : Bool
  repositoryExists : Bool
  archiveOk : Bool
  totalSize : Nat
  commitOk : Bool
  auditOk : Bool
  deriving DecidableEq, Repr

/-- The tail of both creation branches: `db.session.add(backup)` +
`db.session.commit()` followed by `log_audit_trail`.  A commit failure is
caught by the handler, which deletes the artifact directory; an audit
failure is caught by the same handler, which deletes the artifact
directory — but the committed record stays in the catalog. -/
def commitAndAudit (commitOk auditOk : Bool) (st : SysState) (record : BackupRecord) :
    Except BackupError String × SysState :=
  if commitOk = false then (.error .commitFailure, cleanupDir st record.backup_id)
  else
    match catalogCreate st.catalog record with
    | .error e => (.error e, cleanupDir st record.backup_id)
    | .ok cat2 =>
      if auditOk = true then (.ok record.backup_id, { st with catalog := cat2 })
      else (.error .auditFailure, cleanupDir { st with catalog := cat2 } record.backup_id)

/-- The record the FULL branch constructs (the `Backup(...)` constructor
call at lines 236-245): `parent_backup_id` stays `None` and no `wal_lsn`
keyword is passed, so the column keeps its null default. -/
def fullRecord (env : CreateEnv) (now tl : Nat) : BackupRecord :=
  { backup_id := generate_backup_id BackupType.FULL now
  , backup_type := BackupType.FULL
  , backup_date := now
  , timeline_id := tl
  , database_backup_location := joinPath ("backups/" ++ generate_backup_id BackupType.FULL now) "database"
  , files_backup_location := joinPath ("backups/" ++ generate_backup_id BackupType.FULL now) "files"
  , total_size := env.totalSize
  , parent_backup_id := none
  , wal_lsn := none }

/-- The FULL branch of `create_backup`: make the artifact directories
(`exist_ok=True`), run `pg_basebackup` (failure raises), archive the
content tree when `research_repository` exists (failure raises), compute
the size, then commit the record and log the audit trail.  Every raise is
caught by the handler that deletes `backup_dir` and reports the error. -/
def create_backup_full (env : CreateEnv) (st : SysState) (now tl : Nat) :
    Except BackupError String × SysState :=
  let backup_id := generate_backup_id BackupType.FULL now
  if env.engineOk = false then (.error .engineFailure, cleanupDir (addDir st backup_id) backup_id)
  else if env.repositoryExists = true ∧ env.archiveOk = false then
    (.error .archiveFailure, cleanupDir (addDir st backup_id) backup_id)
  else
    commitAndAudit env.commitOk env.auditOk
      (addFiles (addDir st backup_id) backup_id env.repositoryExists) (fullRecord env now tl)

/-- Outcomes of the external steps of the INCREMENTAL branch: whether
`PGDATA` is configured, the LSN reported by `pg_current_wal_lsn` after
the WAL switch, the result of the `pg_stat_database` activity query,
whether any `0000*` WAL file exists, the content-tree probes, the archive
step, the size, and the commit/audit outcomes. -/
structure IncrEnv where
  pgdataConfigured : Bool
  currentLsn : String
  hasChanges : Bool
  walFilesPresent : Bool
  repositoryExists : Bool
  changedFilesNonempty : Bool
  archiveOk : Bool
  totalSize : Nat
  commitOk : Bool
  auditOk : Bool
  deriving DecidableEq, Repr

/-- The record the INCREMENTAL branch constructs: `parent_backup_id` is
the id of the latest record in the current timeline, and again no
`wal_lsn` keyword is passed. -/
def incrRecord (env : IncrEnv) (parent_backup_id : String) (now tl : Nat) : BackupRecord :=
  { backup_id := generate_backup_id BackupType.INCREMENTAL now
  , backup_type := BackupType.INCREMENTAL
  , backup_date := now
  , timeline_id := tl
  , database_backup_location :=
      joinPath ("backups/" ++ generate_backup_id BackupType.INCREMENTAL now) "database"
  , files_backup_location :=
      joinPath ("backups/" ++ generate_backup_id BackupType.INCREMENTAL now) "files"
  , total_size := env.totalSize
  , parent_backup_id := some parent_backup_id
  , wal_lsn := none }

/-- The INCREMENTAL branch of `create_backup`, step for step:

1. `latestInTimeline` empty → the 400 no-full-backup-exists return —
   before any directory is created.
2. Make the artifact directories; unconfigured `PGDATA` raises.
3. `last_backup = Backup.query.order_by(backup_date.desc()).first()`
   (note: *not* filtered by timeline); `None` raises.
4. WAL switch; read current LSN; `last_lsn` is the `wal_lsn` of the
   last backup with default `0/0`; if the activity query found no
   changes **and** the LSN is unchanged, raise the no-changes error.
5. No `0000*` WAL file raises; otherwise the newest WAL file is archived.
6. If the content tree exists and `get_changed_files` is nonempty,
   archive the changed files (an archiving error raises).
7. Commit the record, then log the audit trail. -/
def create_backup_incremental (env : IncrEnv) (st : SysState) (now tl : Nat) :
    Except BackupError String × SysState :=
  match latestInTimeline st.catalog tl with
  | none => (.error .noBaseBackup, st)
  | some latest_backup =>
    let backup_id := generate_backup_id BackupType.INCREMENTAL now
    if env.pgdataConfigured = false then
      (.error .pgdataMissing, cleanupDir (addDir st backup_id) backup_id)
    else
      match latestOverall st.catalog with
      | none => (.error .noPreviousBackup, cleanupDir (addDir st backup_id) backup_id)
      | some last_backup =>
        if env.hasChanges = false ∧ env.currentLsn = last_backup.wal_lsn.getD "0/0" then
          (.error .noChanges, cleanupDir (addDir st backup_id) backup_id)
        else if env.walFilesPresent = false then
          (.error .noWalFiles, cleanupDir (addDir st backup_id) backup_id)
        else if env.repositoryExists = true ∧ env.changedFilesNonempty = true ∧
            env.archiveOk = false then
          (.error .archiveFailure, cleanupDir (addDir st backup_id) backup_id)
        else
          commitAndAudit env.commitOk env.auditOk
            (addFiles (addDir st backup_id) backup_id
              (env.repositoryExists && env.changedFilesNonempty))
            (incrRecord env latest_backup.backup_id now tl)

/-! Part: The FULL restore branch (`restore_backup`, FULL target)

The branch (Windows path, the only implemented one) stops the service,
copies the data directory to a timestamped side location
(`original_data_backup`), wipes it, and then runs three nested `try`
blocks:

* the innermost (line 483) wraps the bounded connection probing; its
  handler *returns* the 500 connection-failed response;
* the middle one (line 390) wraps manifest verification, base/WAL
  extraction, `pg_resetwal`, configuration and service start; its handler
  *returns* a 500 response with the error text;
* only the outermost (line 360) — whose own body is merely the log
  directory setup before the middle `try` — has the handler that copies
  `original_data_backup` back and restarts the service.

Because the two inner handlers return instead of re-raising, every
failure from extraction onward leaves the data directory in whatever
state the failure found it, with no rollback. -/

/-- Abstract contents of the live data directory. -/
inductive LiveData where
  | original
  | wiped
  | restoredFrom (id : String)
  deriving DecidableEq, Repr

/-- Outcomes of the external steps of the FULL restore branch. -/
structure FullRestoreEnv where
  logsDirOk : Bool
  manifestOk : Bool
  baseFileExists : Bool
  resetWalOk : Bool
  connOk : Bool
  deriving DecidableEq, Repr

/-- What a restore invocation leaves behind: the HTTP-ish outcome, the
error text, whether the side-location snapshot was copied back over the
data directory, and the final data directory contents. -/
structure RestoreOutcome where
  httpStatus : Nat
  errorMsg : Option String
  rolledBack : Bool
  dataDir : LiveData
  deriving DecidableEq, Repr

/-- The FULL restore branch after the point of no return (the wipe),
failure site by failure site, with the handler that actually catches
each failure determining the response and whether the snapshot is
restored. -/
def restore_backup_full (env : FullRestoreEnv) (backup_id : String) : RestoreOutcome :=
  if env.logsDirOk = false then
    { httpStatus := 500, errorMsg := some "Restore failed: logs directory setup failed"
    , rolledBack := true, dataDir := .original }
  else if env.manifestOk = false then
    { httpStatus := 500, errorMsg := some "backup_manifest file not found"
    , rolledBack := false, dataDir := .wiped }
  else if env.baseFileExists = false then
    { httpStatus := 500, errorMsg := some "Backup file not found"
    , rolledBack := false, dataDir := .wiped }
  else if env.resetWalOk = false then
    { httpStatus := 500, errorMsg := some "Failed to reset WAL"
    , rolledBack := false, dataDir := .restoredFrom backup_id }
  else if env.connOk = false then
    { httpStatus := 500, errorMsg := some "Restore completed but database connection failed"
    , rolledBack := false, dataDir := .restoredFrom backup_id }
  else
    { httpStatus := 200, errorMsg := none, rolledBack := false
    , dataDir := .restoredFrom backup_id }

/-- The verification tail of the INCREMENTAL restore branch, by contrast:
its single `try` re-raises the exhausted-retries connection failure, and
the branch handler (line 851) copies the snapshot back over the data
directory and restarts the service before answering 500. -/
def restore_backup_incremental_verify (connOk : Bool) (backup_id : String) : RestoreOutcome :=
  if connOk = false then
    { httpStatus := 500, errorMsg := some "Failed connection after maximum retries"
    , rolledBack := true, dataDir := .original }
  else
    { httpStatus := 200, errorMsg := none, rolledBack := false
    , dataDir := .restoredFrom backup_id }

/-! Part: Concrete instances used by witnesses and counterexamples -/

/-- A FULL backup record as scenario 4 of §8 produces it. -/
def b1 : BackupRecord :=
  { backup_id := "B1", backup_type := .FULL, backup_date := 1, timeline_id := 1
  , database_backup_location := "backups/B1/database"
  , files_backup_location := "backups/B1/files"
  , total_size := 10, parent_backup_id := none, wal_lsn := none }

/-- First INCREMENTAL on top of `b1`. -/
def b2 : BackupRecord :=
  { backup_id := "B2", backup_type := .INCREMENTAL, backup_date := 2, timeline_id := 1
  , database_backup_location := "backups/B2/database"
  , files_backup_location := "backups/B2/files"
  , total_size := 4, parent_backup_id := some "B1", wal_lsn := none }

/-- Second INCREMENTAL, on top of `b2`. -/
def b3 : BackupRecord :=
  { backup_id := "B3", backup_type := .INCREMENTAL, backup_date := 3, timeline_id := 1
  , database_backup_location := "backups/B3/database"
  , files_backup_location := "backups/B3/files"
  , total_size := 5, parent_backup_id := some "B2", wal_lsn := none }

/-- Catalog of scenario 4: B1 ← B2 ← B3. -/
def cat3 : List BackupRecord := [b1, b2, b3]

/-- All artifacts present, every `backup.info` recording a WAL filename. -/
def env3 : RestoreFsEnv :=
  { hasBaseArtifacts := fun _ => true
  , hasWalArchive := fun _ => true
  , walFileName := fun id => some ("WAL_" ++ id)
  , hasFilesArchive := fun _ => true }

/-- The plan `restore(B3)` produces on `cat3` with `env3`. -/
def plan3 : IncrRestorePlan :=
  { chain := [b1, b2, b3]
  , walExtracted := [("B2", "WAL_B2"), ("B3", "WAL_B3")]
  , filesApplied := ["B3"] }

/-- The plan `restore(B2)` produces on `cat3` with `env3`: `b3` is not
part of it. -/
def plan2 : IncrRestorePlan :=
  { chain := [b1, b2]
  , walExtracted := [("B2", "WAL_B2")]
  , filesApplied := ["B2"] }

/-- The empty installation: no records, no artifact directories. -/
def st0 : SysState := { catalog := [], dirs := [], filesArtifacts := [] }

/-- An installation holding exactly the FULL backup `b1`. -/
def st1c : SysState := { catalog := [b1], dirs := ["B1"], filesArtifacts := ["B1"] }

/-- A FULL-creation environment in which every step succeeds except the
audit-trail logging after the commit. -/
def envAuditFail : CreateEnv :=
  { engineOk := true, repositoryExists := true, archiveOk := true
  , totalSize := 9, commitOk := true, auditOk := false }

/-- A FULL-creation environment in which every step succeeds but the
content tree `research_repository` does not exist. -/
def envNoRepo : CreateEnv :=
  { engineOk := true, repositoryExists := false, archiveOk := true
  , totalSize := 9, commitOk := true, auditOk := true }

/-- A FULL-creation environment in which every external step succeeds. -/
def envFullOk : CreateEnv :=
  { engineOk := true, repositoryExists := true, archiveOk := true
  , totalSize := 9, commitOk := true, auditOk := true }

/-- An INCREMENTAL-creation environment in which every external step
succeeds, the engine reports a real LSN and the activity query found
transactions. -/
def envIncrOk : IncrEnv :=
  { pgdataConfigured := true, currentLsn := "0/5000000", hasChanges := true
  , walFilesPresent := true, repositoryExists := true, changedFilesNonempty := true
  , archiveOk := true, totalSize := 4, commitOk := true, auditOk := true }

/-- Like `envIncrOk` but with no transactional activity and the LSN equal
to the `0/0` default that the null `wal_lsn` of the parent is read as. -/
def envIncrIdle : IncrEnv :=
  { pgdataConfigured := true, currentLsn := "0/0", hasChanges := false
  , walFilesPresent := true, repositoryExists := true, changedFilesNonempty := false
  , archiveOk := true, totalSize := 0, commitOk := true, auditOk := true }

/-- The installation already holding a FULL backup created at second 7:
a second FULL creation in the same second derives the same id. -/
def stDup : SysState :=
  { catalog := [ { backup_id := "BK_FULL_7", backup_type := .FULL, backup_date := 7
                 , timeline_id := 1
                 , database_backup_location := "backups/BK_FULL_7/database"
                 , files_backup_location := "backups/BK_FULL_7/files"
                 , total_size := 3, parent_backup_id := none, wal_lsn := none } ]
  , dirs := ["BK_FULL_7"], filesArtifacts := ["BK_FULL_7"] }

/-! Part: Catalog query lemmas -/

theorem latestIn_mem {l : List BackupRecord} {r : BackupRecord}
    (h : latestIn l = some r) : r ∈ l := by
  induction l with
  | nil => simp [latestIn] at h
  | cons a l ih =>
    simp only [latestIn] at h
    cases hl : latestIn l with
    | none =>
      rw [hl] at h
      cases h
      exact List.mem_cons_self _ _
    | some b =>
      rw [hl] at h
      by_cases hb : b.backup_date < a.backup_date
      · simp only [hb, if_true] at h
        cases h
        exact List.mem_cons_self _ _
      · simp only [hb, if_false] at h
        cases h
        exact List.mem_cons_of_mem _ (ih hl)

theorem latestInTimeline_mem {cat : List BackupRecord} {tl : Nat} {r : BackupRecord}
    (h : latestInTimeline cat tl = some r) : r ∈ cat ∧ r.timeline_id = tl := by
  have hm := latestIn_mem h
  have := List.mem_filter.mp hm
  exact ⟨this.1, by simpa using this.2⟩

theorem latestInTimeline_empty {cat : List BackupRecord} {tl : Nat}
    (h : ∀ r ∈ cat, r.timeline_id ≠ tl) : latestInTimeline cat tl = none := by
  unfold latestInTimeline
  have : cat.filter (fun r => r.timeline_id = tl) = [] := by
    apply List.filter_eq_nil_iff.mpr
    intro r hr
    simpa using h r hr
  rw [this]
  rfl

/-! Part: Chain-walk lemmas -/

theorem chainWalk_append (cat : List BackupRecord) :
    ∀ (fuel : Nat) (cur : BackupRecord) (acc : List BackupRecord), 0 < fuel →
      ∃ L, chainWalk cat fuel cur acc = L ++ acc ∧ L ≠ [] ∧ L.getLast? = some cur := by
  intro fuel
  induction fuel with
  | zero => intro _ _ h; omega
  | succ n ih =>
    intro cur acc _
    cases hp : cur.parent_backup_id with
    | none =>
      simp only [chainWalk, hp]
      exact ⟨[cur], rfl, by simp, rfl⟩
    | some pid =>
      cases hf : findById cat pid with
      | none =>
        simp only [chainWalk, hp, hf]
        exact ⟨[cur], rfl, by simp, rfl⟩
      | some p =>
        simp only [chainWalk, hp, hf]
        cases n with
        | zero => exact ⟨[cur], rfl, by simp, rfl⟩
        | succ m =>
          obtain ⟨L', hL', hne, hlast⟩ := ih p (cur :: acc) (Nat.succ_pos m)
          refine ⟨L' ++ [cur], by simpa using hL', by simp, ?_⟩
          rw [List.getLast?_append]
          rfl

theorem chainWalk_mem_cat (cat : List BackupRecord) :
    ∀ (fuel : Nat) (cur : BackupRecord) (acc : List BackupRecord), cur ∈ cat →
      (∀ a ∈ acc, a ∈ cat) → ∀ r ∈ chainWalk cat fuel cur acc, r ∈ cat := by
  intro fuel
  induction fuel with
  | zero => intro cur acc _ hacc r hr; exact hacc r hr
  | succ n ih =>
    intro cur acc hcur hacc r hr
    have hacc' : ∀ a ∈ cur :: acc, a ∈ cat := by
      intro a ha
      rcases List.mem_cons.mp ha with h | h
      · exact h ▸ hcur
      · exact hacc a h
    cases hp : cur.parent_backup_id with
    | none =>
      simp only [chainWalk, hp] at hr
      exact hacc' r hr
    | some pid =>
      cases hf : findById cat pid with
      | none =>
        simp only [chainWalk, hp, hf] at hr
        exact hacc' r hr
      | some p =>
        simp only [chainWalk, hp, hf] at hr
        exact ih p (cur :: acc) (List.mem_of_find?_eq_some hf) hacc' r hr

theorem chainWalk_reaches (cat : List BackupRecord) (x : BackupRecord) :
    ∀ (fuel : Nat) (cur : BackupRecord) (acc : List BackupRecord), Reaches cat x cur →
      ∀ r ∈ chainWalk cat fuel cur acc, Reaches cat x r ∨ r ∈ acc := by
  intro fuel
  induction fuel with
  | zero => intro cur acc _ r hr; exact Or.inr hr
  | succ n ih =>
    intro cur acc hcur r hr
    have hcons : r ∈ cur :: acc → Reaches cat x r ∨ r ∈ acc := by
      intro hr'
      rcases List.mem_cons.mp hr' with h | h
      · exact Or.inl (h ▸ hcur)
      · exact Or.inr h
    cases hp : cur.parent_backup_id with
    | none =>
      simp only [chainWalk, hp] at hr
      exact hcons hr
    | some pid =>
      cases hf : findById cat pid with
      | none =>
        simp only [chainWalk, hp, hf] at hr
        exact hcons hr
      | some p =>
        simp only [chainWalk, hp, hf] at hr
        rcases ih p (cur :: acc) (Reaches.step hcur hp hf) r hr with h | h
        · exact Or.inl h
        · exact hcons h

theorem chainWalk_dangling_head (cat : List BackupRecord) :
    ∀ (fuel : Nat) (cur : BackupRecord) (acc : List BackupRecord)
      (r : BackupRecord) (pid : String), 0 < fuel →
      r ∈ chainWalk cat fuel cur acc → r ∉ acc →
      r.parent_backup_id = some pid → findById cat pid = none →
      (chainWalk cat fuel cur acc).head? = some r := by
  intro fuel
  induction fuel with
  | zero => intro _ _ _ _ h; omega
  | succ n ih =>
    intro cur acc r pid _ hr hnacc hrp hdangle
    cases hp : cur.parent_backup_id with
    | none =>
      simp only [chainWalk, hp] at hr ⊢
      rcases List.mem_cons.mp hr with h | h
      · subst h; rfl
      · exact absurd h hnacc
    | some qid =>
      cases hf : findById cat qid with
      | none =>
        simp only [chainWalk, hp, hf] at hr ⊢
        rcases List.mem_cons.mp hr with h | h
        · subst h; rfl
        · exact absurd h hnacc
      | some p =>
        simp only [chainWalk, hp, hf] at hr ⊢
        cases n with
        | zero =>
          rcases List.mem_cons.mp hr with h | h
          · subst h
            rw [hp] at hrp
            cases hrp
            rw [hf] at hdangle
            cases hdangle
          · exact absurd h hnacc
        | succ m =>
          by_cases hcc : r ∈ cur :: acc
          · rcases List.mem_cons.mp hcc with h | h
            · subst h
              rw [hp] at hrp
              cases hrp
              rw [hf] at hdangle
              cases hdangle
            · exact absurd h hnacc
          · exact ih p (cur :: acc) r pid (Nat.succ_pos m) hr hcc hrp hdangle

theorem resolveChain_ok {cat : List BackupRecord} {fuel : Nat} {target : BackupRecord}
    {chain : List BackupRecord} (h : resolveChain cat fuel target = .ok chain) :
    chain = chainWalk cat fuel target [] ∧ 0 < fuel ∧
    ∃ hd, chain.head? = some hd ∧ hd.backup_type = BackupType.FULL := by
  unfold resolveChain at h
  cases hh : (chainWalk cat fuel target []).head? with
  | none =>
    simp only [hh] at h
    exact Except.noConfusion h
  | some r =>
    simp only [hh] at h
    by_cases ht : r.backup_type = BackupType.FULL
    · rw [if_pos ht] at h
      injection h with h
      subst h
      refine ⟨rfl, ?_, r, hh, ht⟩
      cases fuel with
      | zero => simp [chainWalk] at hh
      | succ n => exact Nat.succ_pos n
    · rw [if_neg ht] at h; cases h

theorem incrementalRestorePlan_ok {cat : List BackupRecord} {fuel : Nat}
    {env : RestoreFsEnv} {target : BackupRecord} {plan : IncrRestorePlan}
    (h : incrementalRestorePlan cat fuel env target = .ok plan) :
    resolveChain cat fuel target = .ok plan.chain ∧
    plan.walExtracted = plan.chain.filterMap (fun b =>
      if b.backup_type = BackupType.INCREMENTAL ∧ env.hasWalArchive b.backup_id = true then
        (env.walFileName b.backup_id).map (fun w => (b.backup_id, w))
      else none) ∧
    plan.filesApplied =
      (if env.hasFilesArchive target.backup_id = true then [target.backup_id] else []) := by
  unfold incrementalRestorePlan at h
  revert h
  cases hres : resolveChain cat fuel target with
  | error e =>
    intro h
    exact Except.noConfusion h
  | ok chain =>
    intro h
    replace h : planFromChain env target chain = .ok plan := h
    unfold planFromChain at h
    split at h
    · exact Except.noConfusion h
    · split at h
      · injection h with h
        subst h
        exact ⟨rfl, rfl, rfl⟩
      · exact Except.noConfusion h

/-! Part: Content-tree application lemmas -/

theorem writeFile_keeps {tree : List (String × String)} {q : String}
    (h : ∃ e ∈ tree, e.1 = q) (p c : String) :
    ∃ e ∈ writeFile tree p c, e.1 = q := by
  obtain ⟨e, he, heq⟩ := h
  unfold writeFile
  by_cases hf : (tree.find? (fun x => x.1 = p)).isSome
  · rw [if_pos hf]
    by_cases hep : e.1 = p
    · refine ⟨(p, c), List.mem_map.mpr ⟨e, he, by rw [if_pos hep]⟩, ?_⟩
      rw [← hep, heq]
    · exact ⟨e, List.mem_map.mpr ⟨e, he, by rw [if_neg hep]⟩, heq⟩
  · rw [if_neg hf]
    exact ⟨e, List.mem_append.mpr (Or.inl he), heq⟩

theorem applyArchive_keeps (members : List (String × String)) :
    ∀ (tree : List (String × String)) (q : String),
      (∃ e ∈ tree, e.1 = q) → ∃ e ∈ applyArchive tree members, e.1 = q := by
  induction members with
  | nil => intro tree q h; exact h
  | cons m ms ih =>
    intro tree q h
    exact ih (writeFile tree m.1 m.2) q (writeFile_keeps h m.1 m.2)

theorem filterMap_sublist_map {α β : Type} (f : α → β) (g : α → Option β)
    (hg : ∀ a b, g a = some b → b = f a) :
    ∀ l : List α, List.Sublist (l.filterMap g) (l.map f) := by
  intro l
  induction l with
  | nil => simp
  | cons a l ih =>
    cases hga : g a with
    | none =>
      simp only [List.filterMap_cons, hga, List.map_cons]
      exact ih.cons _
    | some b =>
      simp only [List.filterMap_cons, hga, List.map_cons]
      rw [hg a b hga]
      exact ih.cons₂ _

/-! Part: Claim theorems about chain resolution and restore application -/

/-- C4: chain resolution yields a sequence rooted at a FULL record and
ending at the requested backup; a dangling `parent_backup_id` anywhere
along the walk makes the operation fail with the chain-integrity error
instead of silently accepting a partial chain.  The typing hypothesis
(`FULL` records carry no parent pointer) is the invariant `create_backup`
establishes: it assigns `parent_backup_id` only on the INCREMENTAL path. -/
theorem chain_resolution_full_root_or_integrity_error
    (cat : List BackupRecord) (fuel : Nat) (x : BackupRecord)
    (hx : x ∈ cat)
    (hty : ∀ r ∈ cat, r.backup_type = BackupType.FULL → r.parent_backup_id = none) :
    (∀ chain, resolveChain cat fuel x = .ok chain →
       (∃ hd, chain.head? = some hd ∧ hd.backup_type = BackupType.FULL) ∧
       chain.getLast? = some x) ∧
    (∀ r ∈ chainWalk cat fuel x [], ∀ pid, r.parent_backup_id = some pid →
       findById cat pid = none →
       resolveChain cat fuel x = .error "No base full backup found in the backup chain") := by
  constructor
  · intro chain hok
    obtain ⟨hchain, hfuel, hd, hhd, hty'⟩ := resolveChain_ok hok
    refine ⟨⟨hd, hhd, hty'⟩, ?_⟩
    obtain ⟨L, hL, hne, hlast⟩ := chainWalk_append cat fuel x [] hfuel
    rw [List.append_nil] at hL
    rw [hchain, hL, hlast]
  · intro r hr pid hrp hdangle
    have hhead : (chainWalk cat fuel x []).head? = some r := by
      have hfuel : 0 < fuel := by
        cases fuel with
        | zero => simp [chainWalk] at hr
        | succ n => exact Nat.succ_pos n
      exact chainWalk_dangling_head cat fuel x [] r pid hfuel hr (by simp) hrp hdangle
    have hrcat : r ∈ cat :=
      chainWalk_mem_cat cat fuel x [] hx (by simp) r hr
    have hnotfull : ¬ r.backup_type = BackupType.FULL := by
      intro hfull
      rw [hty r hrcat hfull] at hrp
      cases hrp
    unfold resolveChain
    simp only [hhead, if_neg hnotfull]

/-- Witness for the C4 theorem: on the three-member catalog `cat3`,
resolving from `b3` satisfies both conjuncts. -/
theorem chain_resolution_full_root_or_integrity_error_witness :
    b3 ∈ cat3 ∧
    (∀ r ∈ cat3, r.backup_type = BackupType.FULL → r.parent_backup_id = none) ∧
    ((∀ chain, resolveChain cat3 3 b3 = .ok chain →
       (∃ hd, chain.head? = some hd ∧ hd.backup_type = BackupType.FULL) ∧
       chain.getLast? = some b3) ∧
     (∀ r ∈ chainWalk cat3 3 b3 [], ∀ pid, r.parent_backup_id = some pid →
       findById cat3 pid = none →
       resolveChain cat3 3 b3 = .error "No base full backup found in the backup chain")) :=
  ⟨by decide, by decide,
    chain_resolution_full_root_or_integrity_error cat3 3 b3 (by decide) (by decide)⟩

/-- C2: the incremental restore branch applies artifacts of exactly the
records of the resolved chain — rooted at a FULL record and ending at the
target — and of nothing else: any catalog record not on the parent chain
of the target contributes no artifact to the reconstruction. -/
theorem restore_applies_exactly_the_chain
    (cat : List BackupRecord) (fuel : Nat) (env : RestoreFsEnv)
    (target : BackupRecord) (plan : IncrRestorePlan)
    (hx : target ∈ cat)
    (hnodup : (cat.map (fun r => r.backup_id)).Nodup)
    (hok : incrementalRestorePlan cat fuel env target = .ok plan) :
    (∃ hd, plan.chain.head? = some hd ∧ hd.backup_type = BackupType.FULL) ∧
    plan.chain.getLast? = some target ∧
    (∀ r ∈ plan.chain, Reaches cat target r) ∧
    (∀ id ∈ plan.appliedIds, ∃ r, r ∈ plan.chain ∧ r.backup_id = id) ∧
    (∀ r ∈ cat, ¬ Reaches cat target r → r.backup_id ∉ plan.appliedIds) := by
  obtain ⟨hres, hwal, hfiles⟩ := incrementalRestorePlan_ok hok
  obtain ⟨hchain, hfuel, hd, hhd, hdty⟩ := resolveChain_ok hres
  have hlast : plan.chain.getLast? = some target := by
    obtain ⟨L, hL, hne, hl⟩ := chainWalk_append cat fuel target [] hfuel
    rw [List.append_nil] at hL
    rw [hchain, hL, hl]
  have hreach : ∀ r ∈ plan.chain, Reaches cat target r := by
    intro r hr
    rw [hchain] at hr
    rcases chainWalk_reaches cat target fuel target [] (Reaches.refl target) r hr with h | h
    · exact h
    · cases h
  have hmem : ∀ r ∈ plan.chain, r ∈ cat := by
    intro r hr
    rw [hchain] at hr
    exact chainWalk_mem_cat cat fuel target [] hx (by simp) r hr
  have htgt : target ∈ plan.chain := List.mem_of_getLast?_eq_some hlast
  have happ : ∀ id ∈ plan.appliedIds, ∃ r, r ∈ plan.chain ∧ r.backup_id = id := by
    intro id hid
    unfold IncrRestorePlan.appliedIds at hid
    rcases List.mem_append.mp hid with hid | hid
    · rcases List.mem_append.mp hid with hid | hid
      · have : id ∈ plan.chain.map (fun r => r.backup_id) :=
          List.take_subset _ _ hid
        obtain ⟨r, hr, hrid⟩ := List.mem_map.mp this
        exact ⟨r, hr, hrid⟩
      · obtain ⟨pr, hpr, hprid⟩ := List.mem_map.mp hid
        rw [hwal] at hpr
        obtain ⟨b, hb, hgb⟩ := List.mem_filterMap.mp hpr
        by_cases hc : b.backup_type = BackupType.INCREMENTAL ∧ env.hasWalArchive b.backup_id = true
        · rw [if_pos hc] at hgb
          obtain ⟨w, hwn, hww⟩ := Option.map_eq_some'.mp hgb
          refine ⟨b, hb, ?_⟩
          rw [← hprid, ← hww]
        · rw [if_neg hc] at hgb
          cases hgb
    · rw [hfiles] at hid
      by_cases hfa : env.hasFilesArchive target.backup_id = true
      · rw [if_pos hfa] at hid
        rcases List.mem_singleton.mp hid with h
        exact ⟨target, htgt, h.symm⟩
      · rw [if_neg hfa] at hid
        cases hid
  refine ⟨⟨hd, hhd, hdty⟩, hlast, hreach, happ, ?_⟩
  intro r hrcat hnr hin
  obtain ⟨rc, hrc, hrcid⟩ := happ _ hin
  have hreq : r = rc :=
    List.inj_on_of_nodup_map hnodup hrcat (hmem rc hrc) hrcid.symm
  exact hnr (by rw [hreq]; exact hreach rc hrc)

/-- Witness for the C2 theorem: scenario 5 of §8 — with B1←B2←B3 in the
catalog, `restore(B2)` yields plan `plan2`, whose applied ids avoid B3. -/
theorem restore_applies_exactly_the_chain_witness :
    b2 ∈ cat3 ∧
    (cat3.map (fun r => r.backup_id)).Nodup ∧
    incrementalRestorePlan cat3 3 env3 b2 = .ok plan2 ∧
    ((∃ hd, plan2.chain.head? = some hd ∧ hd.backup_type = BackupType.FULL) ∧
     plan2.chain.getLast? = some b2 ∧
     (∀ r ∈ plan2.chain, Reaches cat3 b2 r) ∧
     (∀ id ∈ plan2.appliedIds, ∃ r, r ∈ plan2.chain ∧ r.backup_id = id) ∧
     (∀ r ∈ cat3, ¬ Reaches cat3 b2 r → r.backup_id ∉ plan2.appliedIds)) :=
  ⟨by decide, by decide, rfl,
    restore_applies_exactly_the_chain cat3 3 env3 b2 plan2 (by decide) (by decide) rfl⟩

/-- C3 counterexample: restoring B3 over the chain [B1, B2, B3] with
every artifact present extracts WAL deltas for B2 and B3, but applies
only the content-file archive of B3: B2 is in `chain[1:]` and its archive
exists, yet its id is absent from the applied content archives. -/
theorem restore_intermediate_files_archive_not_applied :
    incrementalRestorePlan cat3 3 env3 b3 = .ok plan3 ∧
    b2 ∈ plan3.chain.drop 1 ∧
    env3.hasFilesArchive b2.backup_id = true ∧
    b2.backup_id ∉ plan3.filesApplied :=
  ⟨rfl, by decide, rfl, by decide⟩

/-- C3 (amended): for each chain member the WAL delta is extracted under
its recorded original filename — every INCREMENTAL of the chain with an
existing `wal.xz` and a recorded `wal_file=` name, in chain order — but
only the changed-file archive of the *target* record is applied onto the
content tree (overwriting by relative path and never deleting);
the content archives of intermediate incrementals are not applied. -/
theorem restore_wal_per_member_files_target_only
    (cat : List BackupRecord) (fuel : Nat) (env : RestoreFsEnv)
    (target : BackupRecord) (plan : IncrRestorePlan)
    (hok : incrementalRestorePlan cat fuel env target = .ok plan) :
    (∀ b ∈ plan.chain, b.backup_type = BackupType.INCREMENTAL →
       env.hasWalArchive b.backup_id = true →
       ∀ w, env.walFileName b.backup_id = some w → (b.backup_id, w) ∈ plan.walExtracted) ∧
    (∀ pr ∈ plan.walExtracted, ∃ b, b ∈ plan.chain ∧ b.backup_type = BackupType.INCREMENTAL ∧
       pr.1 = b.backup_id ∧ env.walFileName b.backup_id = some pr.2) ∧
    List.Sublist (plan.walExtracted.map Prod.fst) (plan.chain.map (fun r => r.backup_id)) ∧
    plan.filesApplied =
      (if env.hasFilesArchive target.backup_id = true then [target.backup_id] else []) ∧
    (∀ (tree members : List (String × String)) (q : String),
       (∃ e ∈ tree, e.1 = q) → ∃ e ∈ applyArchive tree members, e.1 = q) := by
  obtain ⟨hres, hwal, hfiles⟩ := incrementalRestorePlan_ok hok
  refine ⟨?_, ?_, ?_, hfiles, fun tree members q h => applyArchive_keeps members tree q h⟩
  · intro b hb hty harch w hwn
    rw [hwal]
    refine List.mem_filterMap.mpr ⟨b, hb, ?_⟩
    rw [if_pos ⟨hty, harch⟩, hwn]
    rfl
  · intro pr hpr
    rw [hwal] at hpr
    obtain ⟨b, hb, hgb⟩ := List.mem_filterMap.mp hpr
    by_cases hc : b.backup_type = BackupType.INCREMENTAL ∧ env.hasWalArchive b.backup_id = true
    · rw [if_pos hc] at hgb
      obtain ⟨w, hwn, hww⟩ := Option.map_eq_some'.mp hgb
      refine ⟨b, hb, hc.1, ?_, ?_⟩
      · rw [← hww]
      · rw [hwn, ← hww]
    · rw [if_neg hc] at hgb
      cases hgb
  · rw [hwal, List.map_filterMap]
    apply filterMap_sublist_map
    intro a c hg
    by_cases hc : a.backup_type = BackupType.INCREMENTAL ∧ env.hasWalArchive a.backup_id = true
    · rw [if_pos hc] at hg
      cases hwn : env.walFileName a.backup_id with
      | none =>
        rw [hwn] at hg
        cases hg
      | some w =>
        rw [hwn] at hg
        simp only [Option.map_some'] at hg
        injection hg with hg
        exact hg.symm
    · rw [if_neg hc] at hg
      cases hg

/-- Witness for the amended C3 theorem at the concrete scenario-4 input. -/
theorem restore_wal_per_member_files_target_only_witness :
    incrementalRestorePlan cat3 3 env3 b3 = .ok plan3 ∧
    ((∀ b ∈ plan3.chain, b.backup_type = BackupType.INCREMENTAL →
       env3.hasWalArchive b.backup_id = true →
       ∀ w, env3.walFileName b.backup_id = some w → (b.backup_id, w) ∈ plan3.walExtracted) ∧
     (∀ pr ∈ plan3.walExtracted, ∃ b, b ∈ plan3.chain ∧ b.backup_type = BackupType.INCREMENTAL ∧
       pr.1 = b.backup_id ∧ env3.walFileName b.backup_id = some pr.2) ∧
     List.Sublist (plan3.walExtracted.map Prod.fst) (plan3.chain.map (fun r => r.backup_id)) ∧
     plan3.filesApplied =
       (if env3.hasFilesArchive b3.backup_id = true then [b3.backup_id] else []) ∧
     (∀ (tree members : List (String × String)) (q : String),
       (∃ e ∈ tree, e.1 = q) → ∃ e ∈ applyArchive tree members, e.1 = q)) :=
  ⟨rfl, restore_wal_per_member_files_target_only cat3 3 env3 b3 plan3 rfl⟩

/-! Part: Claim theorems about the change detector -/

/-- C8 counterexample: on root `research_repository` holding the single
file `a.txt` with modification time 5 and cutoff 3, the detector returns
the root-prefixed walk path, not the path relative to the root. -/
theorem get_changed_files_not_relative_cex :
    get_changed_files "research_repository" [⟨"a.txt", 5⟩] 3 = ["research_repository/a.txt"] ∧
    "a.txt" ∉ get_changed_files "research_repository" [⟨"a.txt", 5⟩] 3 := by
  decide

/-- C8 (amended): the change detector returns exactly the files under the
root whose modification time is strictly greater than the cutoff, but as
root-prefixed walk paths (`os.path.join(root, file)`), not as paths
relative to the root; it is a pure read (a filter-and-map over the walk,
with no mutation of the tree). -/
theorem get_changed_files_exact
    (root : String) (tree : List FsEntry) (cutoff : Nat) (s : String) :
    s ∈ get_changed_files root tree cutoff ↔
      ∃ e ∈ tree, cutoff < e.mtime ∧ s = joinPath root e.path := by
  unfold get_changed_files
  constructor
  · intro hs
    obtain ⟨e, he, hes⟩ := List.mem_map.mp hs
    have hf := List.mem_filter.mp he
    exact ⟨e, hf.1, by simpa using hf.2, hes.symm⟩
  · rintro ⟨e, he, hm, hs⟩
    exact List.mem_map.mpr ⟨e, List.mem_filter.mpr ⟨he, by simpa using hm⟩, hs.symm⟩

/-! Part: Creation-flow lemmas -/

theorem cleanupDir_catalog (st : SysState) (id : String) :
    (cleanupDir st id).catalog = st.catalog := rfl

theorem cleanupDir_not_mem_dirs (st : SysState) (id : String) :
    id ∉ (cleanupDir st id).dirs := by
  unfold cleanupDir
  intro h
  have hm := List.mem_filter.mp h
  simp at hm

theorem catalogCreate_ok {cat : List BackupRecord} {r : BackupRecord}
    {cat2 : List BackupRecord} (h : catalogCreate cat r = .ok cat2) :
    cat2 = cat ++ [r] ∧ (findById cat r.backup_id).isSome = false := by
  unfold catalogCreate at h
  split at h
  · exact Except.noConfusion h
  · rename_i hdup
    split at h
    · exact Except.noConfusion h
    · split at h
      · split at h
        · injection h with h
          exact ⟨h.symm, by simpa using hdup⟩
        · exact Except.noConfusion h
      · exact Except.noConfusion h
    · injection h with h
      exact ⟨h.symm, by simpa using hdup⟩

theorem catalogCreate_error {cat : List BackupRecord} {r : BackupRecord}
    {e : BackupError} (h : catalogCreate cat r = .error e) :
    e = .duplicateId ∨ e = .chainIntegrity := by
  unfold catalogCreate at h
  split at h
  · injection h with h
    exact Or.inl h.symm
  · split at h
    · injection h with h
      exact Or.inr h.symm
    · split at h
      · split at h
        · exact Except.noConfusion h
        · injection h with h
          exact Or.inr h.symm
      · injection h with h
        exact Or.inr h.symm
    · exact Except.noConfusion h

theorem catalogCreate_dup {cat : List BackupRecord} {r : BackupRecord}
    (h : (findById cat r.backup_id).isSome = true) :
    catalogCreate cat r = .error .duplicateId := by
  unfold catalogCreate
  rw [if_pos h]

theorem findById_of_mem {cat : List BackupRecord} {r : BackupRecord}
    (hnodup : (cat.map (fun x => x.backup_id)).Nodup) (hr : r ∈ cat) :
    findById cat r.backup_id = some r := by
  induction cat with
  | nil => cases hr
  | cons a l ih =>
    rw [List.map_cons, List.nodup_cons] at hnodup
    rcases List.mem_cons.mp hr with h | h
    · subst h
      unfold findById
      rw [List.find?_cons_of_pos _ (by simp)]
    · have hne : ¬ (a.backup_id = r.backup_id) := by
        intro hq
        exact hnodup.1 (hq ▸ List.mem_map.mpr ⟨r, h, rfl⟩)
      unfold findById at ih ⊢
      rw [List.find?_cons_of_neg _ (by simpa using hne)]
      exact ih hnodup.2 h

/-- Exhaustive outcome analysis of the commit-then-audit tail shared by
both creation branches: every failure deletes the artifact directory;
only the post-commit audit failure leaves the freshly committed record
behind; success appends the record. -/
theorem commitAndAudit_cases (co ao : Bool) (st : SysState) (r : BackupRecord) :
    (∃ e, (commitAndAudit co ao st r).1 = .error e ∧
       r.backup_id ∉ (commitAndAudit co ao st r).2.dirs ∧
       (e = .commitFailure ∨ e = .duplicateId ∨ e = .chainIntegrity ∨ e = .auditFailure) ∧
       (e = .auditFailure → ao = false) ∧
       ((e = .auditFailure ∧ (commitAndAudit co ao st r).2.catalog = st.catalog ++ [r]) ∨
        (e ≠ .auditFailure ∧ (commitAndAudit co ao st r).2.catalog = st.catalog))) ∨
    ((commitAndAudit co ao st r).1 = .ok r.backup_id ∧
     (commitAndAudit co ao st r).2.catalog = st.catalog ++ [r] ∧
     co = true ∧ ao = true ∧ (findById st.catalog r.backup_id).isSome = false) := by
  cases co with
  | false =>
    simp only [commitAndAudit, if_pos rfl]
    exact Or.inl ⟨.commitFailure, rfl, cleanupDir_not_mem_dirs st r.backup_id, by simp,
      fun h => BackupError.noConfusion h, Or.inr ⟨by simp, rfl⟩⟩
  | true =>
    simp only [commitAndAudit, if_neg (by simp : ¬ (true = false))]
    cases hcc : catalogCreate st.catalog r with
    | error e =>
      simp only [hcc]
      have he := catalogCreate_error hcc
      refine Or.inl ⟨e, rfl, cleanupDir_not_mem_dirs st r.backup_id, ?_, ?_, Or.inr ⟨?_, rfl⟩⟩
      · rcases he with h | h
        · exact Or.inr (Or.inl h)
        · exact Or.inr (Or.inr (Or.inl h))
      · intro hh
        rw [hh] at he
        rcases he with h | h <;> cases h
      · rcases he with h | h <;> simp [h]
    | ok cat2 =>
      simp only [hcc]
      obtain ⟨hc2, hfresh⟩ := catalogCreate_ok hcc
      cases ao with
      | true =>
        simp only [if_pos rfl]
        exact Or.inr ⟨rfl, hc2, trivial, trivial, hfresh⟩
      | false =>
        simp only [if_neg (by simp : ¬ (false = true))]
        refine Or.inl ⟨.auditFailure, rfl, cleanupDir_not_mem_dirs _ _, by simp,
          fun _ => trivial, Or.inl ⟨rfl, ?_⟩⟩
        rw [cleanupDir_catalog]
        exact hc2

theorem addDir_catalog (st : SysState) (id : String) :
    (addDir st id).catalog = st.catalog := rfl

theorem addFiles_catalog (st : SysState) (id : String) (present : Bool) :
    (addFiles st id present).catalog = st.catalog := by
  unfold addFiles
  split <;> rfl

/-- Exhaustive outcome analysis of the FULL creation branch. -/
theorem create_backup_full_cases (env : CreateEnv) (st : SysState) (now tl : Nat) :
    (∃ e, (create_backup_full env st now tl).1 = .error e ∧
       generate_backup_id BackupType.FULL now ∉ (create_backup_full env st now tl).2.dirs ∧
       (e = .auditFailure → env.auditOk = false) ∧
       ((e = .auditFailure ∧
           (create_backup_full env st now tl).2.catalog = st.catalog ++ [fullRecord env now tl]) ∨
        (e ≠ .auditFailure ∧ (create_backup_full env st now tl).2.catalog = st.catalog))) ∨
    ((create_backup_full env st now tl).1 = .ok (generate_backup_id BackupType.FULL now) ∧
     (create_backup_full env st now tl).2.catalog = st.catalog ++ [fullRecord env now tl] ∧
     env.engineOk = true ∧ (env.repositoryExists = true → env.archiveOk = true) ∧
     env.commitOk = true ∧ env.auditOk = true ∧
     (findById st.catalog (generate_backup_id BackupType.FULL now)).isSome = false) := by
  cases heng : env.engineOk with
  | false =>
    simp only [create_backup_full, heng, if_pos rfl]
    exact Or.inl ⟨.engineFailure, rfl, cleanupDir_not_mem_dirs _ _,
      fun h => BackupError.noConfusion h, Or.inr ⟨by simp, rfl⟩⟩
  | true =>
    by_cases harch : env.repositoryExists = true ∧ env.archiveOk = false
    · simp only [create_backup_full, heng, if_neg (by simp : ¬ (true = false)), if_pos harch]
      exact Or.inl ⟨.archiveFailure, rfl, cleanupDir_not_mem_dirs _ _,
        fun h => BackupError.noConfusion h, Or.inr ⟨by simp, rfl⟩⟩
    · simp only [create_backup_full, heng, if_neg (by simp : ¬ (true = false)), if_neg harch]
      rcases commitAndAudit_cases env.commitOk env.auditOk
          (addFiles (addDir st (generate_backup_id BackupType.FULL now))
            (generate_backup_id BackupType.FULL now) env.repositoryExists)
          (fullRecord env now tl) with ⟨e, h1, h2, h3, h3a, h4⟩ | ⟨h1, h2, h3, h4, h5⟩
      · refine Or.inl ⟨e, h1, h2, h3a, ?_⟩
        rcases h4 with ⟨hea, hcatal⟩ | ⟨hne, hcatal⟩
        · exact Or.inl ⟨hea, by rw [hcatal, addFiles_catalog, addDir_catalog]⟩
        · exact Or.inr ⟨hne, by rw [hcatal, addFiles_catalog, addDir_catalog]⟩
      · refine Or.inr ⟨h1, by rw [h2, addFiles_catalog, addDir_catalog], trivial, ?_, h3, h4, ?_⟩
        · intro hre
          cases hao : env.archiveOk with
          | true => rfl
          | false => exact absurd ⟨hre, hao⟩ harch
        · rw [addFiles_catalog, addDir_catalog] at h5
          exact h5

/-- Exhaustive outcome analysis of the INCREMENTAL creation branch. -/
theorem create_backup_incremental_cases (env : IncrEnv) (st : SysState) (now tl : Nat) :
    (create_backup_incremental env st now tl = (.error .noBaseBackup, st) ∧
      latestInTimeline st.catalog tl = none) ∨
    (∃ parent, latestInTimeline st.catalog tl = some parent ∧
      ((∃ e, (create_backup_incremental env st now tl).1 = .error e ∧
         generate_backup_id BackupType.INCREMENTAL now ∉
           (create_backup_incremental env st now tl).2.dirs ∧
         (e = .auditFailure → env.auditOk = false) ∧
         ((e = .auditFailure ∧
             (create_backup_incremental env st now tl).2.catalog =
               st.catalog ++ [incrRecord env parent.backup_id now tl]) ∨
          (e ≠ .auditFailure ∧
             (create_backup_incremental env st now tl).2.catalog = st.catalog))) ∨
       ((create_backup_incremental env st now tl).1 =
          .ok (generate_backup_id BackupType.INCREMENTAL now) ∧
        (create_backup_incremental env st now tl).2.catalog =
          st.catalog ++ [incrRecord env parent.backup_id now tl] ∧
        env.pgdataConfigured = true ∧ env.walFilesPresent = true ∧
        env.commitOk = true ∧ env.auditOk = true ∧
        (findById st.catalog (generate_backup_id BackupType.INCREMENTAL now)).isSome = false))) := by
  cases hlt : latestInTimeline st.catalog tl with
  | none =>
    simp only [create_backup_incremental, hlt]
    exact Or.inl ⟨trivial, trivial⟩
  | some parent =>
    refine Or.inr ⟨parent, rfl, ?_⟩
    cases hpg : env.pgdataConfigured with
    | false =>
      simp only [create_backup_incremental, hlt, hpg, if_pos rfl]
      exact Or.inl ⟨.pgdataMissing, rfl, cleanupDir_not_mem_dirs _ _,
        fun h => BackupError.noConfusion h, Or.inr ⟨by simp, rfl⟩⟩
    | true =>
      cases hlo : latestOverall st.catalog with
      | none =>
        simp only [create_backup_incremental, hlt, hpg,
          if_neg (by simp : ¬ (true = false)), hlo]
        exact Or.inl ⟨.noPreviousBackup, rfl, cleanupDir_not_mem_dirs _ _,
          fun h => BackupError.noConfusion h, Or.inr ⟨by simp, rfl⟩⟩
      | some last_backup =>
        by_cases hnc : env.hasChanges = false ∧ env.currentLsn = last_backup.wal_lsn.getD "0/0"
        · simp only [create_backup_incremental, hlt, hpg,
            if_neg (by simp : ¬ (true = false)), hlo, if_pos hnc]
          exact Or.inl ⟨.noChanges, rfl, cleanupDir_not_mem_dirs _ _,
            fun h => BackupError.noConfusion h, Or.inr ⟨by simp, rfl⟩⟩
        · cases hwf : env.walFilesPresent with
          | false =>
            simp only [create_backup_incremental, hlt, hpg,
              if_neg (by simp : ¬ (true = false)), hlo, if_neg hnc, hwf, if_pos rfl]
            exact Or.inl ⟨.noWalFiles, rfl, cleanupDir_not_mem_dirs _ _,
              fun h => BackupError.noConfusion h, Or.inr ⟨by simp, rfl⟩⟩
          | true =>
            by_cases harch : env.repositoryExists = true ∧ env.changedFilesNonempty = true ∧
                env.archiveOk = false
            · simp only [create_backup_incremental, hlt, hpg,
                if_neg (by simp : ¬ (true = false)), hlo, if_neg hnc, hwf, if_pos harch]
              exact Or.inl ⟨.archiveFailure, rfl, cleanupDir_not_mem_dirs _ _,
                fun h => BackupError.noConfusion h, Or.inr ⟨by simp, rfl⟩⟩
            · simp only [create_backup_incremental, hlt, hpg,
                if_neg (by simp : ¬ (true = false)), hlo, if_neg hnc, hwf, if_neg harch]
              rcases commitAndAudit_cases env.commitOk env.auditOk
                  (addFiles (addDir st (generate_backup_id BackupType.INCREMENTAL now))
                    (generate_backup_id BackupType.INCREMENTAL now)
                    (env.repositoryExists && env.changedFilesNonempty))
                  (incrRecord env parent.backup_id now tl) with
                ⟨e, h1, h2, h3, h3a, h4⟩ | ⟨h1, h2, h3, h4, h5⟩
              · refine Or.inl ⟨e, h1, h2, h3a, ?_⟩
                rcases h4 with ⟨hea, hcatal⟩ | ⟨hne, hcatal⟩
                · exact Or.inl ⟨hea, by rw [hcatal, addFiles_catalog, addDir_catalog]⟩
                · exact Or.inr ⟨hne, by rw [hcatal, addFiles_catalog, addDir_catalog]⟩
              · refine Or.inr ⟨h1, by rw [h2, addFiles_catalog, addDir_catalog],
                  trivial, trivial, h3, h4, ?_⟩
                rw [addFiles_catalog, addDir_catalog] at h5
                exact h5

/-- If the INCREMENTAL branch failed with the no-changes error, then the
activity query found nothing and the captured LSN equalled the
`wal_lsn` (default `0/0`) of the latest backup overall. -/
theorem create_backup_incremental_noChanges (env : IncrEnv) (st : SysState) (now tl : Nat)
    (h : (create_backup_incremental env st now tl).1 = .error .noChanges) :
    ∃ last_backup, latestOverall st.catalog = some last_backup ∧
      env.hasChanges = false ∧ env.currentLsn = last_backup.wal_lsn.getD "0/0" := by
  cases hlt : latestInTimeline st.catalog tl with
  | none =>
    simp only [create_backup_incremental, hlt] at h
    cases h
  | some parent =>
    cases hpg : env.pgdataConfigured with
    | false =>
      simp only [create_backup_incremental, hlt, hpg, if_pos rfl] at h
      cases h
    | true =>
      cases hlo : latestOverall st.catalog with
      | none =>
        simp only [create_backup_incremental, hlt, hpg,
          if_neg (by simp : ¬ (true = false)), hlo] at h
        cases h
      | some last_backup =>
        by_cases hnc : env.hasChanges = false ∧ env.currentLsn = last_backup.wal_lsn.getD "0/0"
        · exact ⟨last_backup, rfl, hnc⟩
        · cases hwf : env.walFilesPresent with
          | false =>
            simp only [create_backup_incremental, hlt, hpg,
              if_neg (by simp : ¬ (true = false)), hlo, if_neg hnc, hwf, if_pos rfl] at h
            cases h
          | true =>
            by_cases harch : env.repositoryExists = true ∧ env.changedFilesNonempty = true ∧
                env.archiveOk = false
            · simp only [create_backup_incremental, hlt, hpg,
                if_neg (by simp : ¬ (true = false)), hlo, if_neg hnc, hwf, if_pos harch] at h
              cases h
            · simp only [create_backup_incremental, hlt, hpg,
                if_neg (by simp : ¬ (true = false)), hlo, if_neg hnc, hwf, if_neg harch] at h
              rcases commitAndAudit_cases env.commitOk env.auditOk
                  (addFiles (addDir st (generate_backup_id BackupType.INCREMENTAL now))
                    (generate_backup_id BackupType.INCREMENTAL now)
                    (env.repositoryExists && env.changedFilesNonempty))
                  (incrRecord env parent.backup_id now tl) with
                ⟨e, h1, h2, h3, h3a, h4⟩ | ⟨h1, h2, h3, h4, h5⟩
              · rw [h1] at h
                injection h with h
                subst h
                rcases h3 with h | h | h | h <;> cases h
              · rw [h1] at h
                cases h

theorem catalogCreate_incr_ok {cat : List BackupRecord} {r : BackupRecord} {pid : String}
    (hty : r.backup_type = BackupType.INCREMENTAL)
    (hpp : r.parent_backup_id = some pid)
    (hfresh : findById cat r.backup_id = none)
    (hparent : ∃ p, findById cat pid = some p ∧ p.timeline_id = r.timeline_id) :
    catalogCreate cat r = .ok (cat ++ [r]) := by
  obtain ⟨p, hp, hptl⟩ := hparent
  unfold catalogCreate
  rw [if_neg (by simp [hfresh])]
  simp only [hty, hpp, hp, if_pos hptl]

theorem commitAndAudit_success (st : SysState) (r : BackupRecord)
    (hcc : catalogCreate st.catalog r = .ok (st.catalog ++ [r])) :
    commitAndAudit true true st r =
      (.ok r.backup_id, { st with catalog := st.catalog ++ [r] }) := by
  simp only [commitAndAudit, if_neg (by simp : ¬ (true = false)), hcc]
  rfl

/-! Part: Claim theorems about backup creation -/

/-- C7: when the catalog holds no record in the current timeline (in
particular when it is empty), the INCREMENTAL branch fails with the
no-base-backup error before producing any artifact: the returned state —
catalog, artifact directories and content archives — is exactly the input
state. -/
theorem incremental_no_base_backup
    (env : IncrEnv) (st : SysState) (now tl : Nat)
    (h : ∀ r ∈ st.catalog, r.timeline_id ≠ tl) :
    create_backup_incremental env st now tl = (.error .noBaseBackup, st) := by
  have hlt := latestInTimeline_empty h
  simp only [create_backup_incremental, hlt]

/-- Witness for the C7 theorem on the empty catalog. -/
theorem incremental_no_base_backup_witness :
    (∀ r ∈ st0.catalog, r.timeline_id ≠ 1) ∧
    create_backup_incremental envIncrOk st0 7 1 = (.error .noBaseBackup, st0) :=
  ⟨by decide, incremental_no_base_backup envIncrOk st0 7 1 (by decide)⟩

/-- C6: with the environment otherwise able to proceed (PGDATA set, WAL
files present, archiving, commit and audit succeeding, a fresh id, and
the latest record overall being the latest in the current timeline — the
parent), the INCREMENTAL branch fails with the no-changes error exactly
when the activity query reported no transactions AND the captured LSN
equals the recorded end position of the parent (`wal_lsn`, read `0/0` when
null); otherwise it proceeds and the backup record is created. -/
theorem incremental_no_changes_exactly
    (env : IncrEnv) (st : SysState) (now tl : Nat) (parent : BackupRecord)
    (hnodup : (st.catalog.map (fun x => x.backup_id)).Nodup)
    (hlt : latestInTimeline st.catalog tl = some parent)
    (hlo : latestOverall st.catalog = some parent)
    (hpg : env.pgdataConfigured = true)
    (hwf : env.walFilesPresent = true)
    (harch : env.archiveOk = true)
    (hco : env.commitOk = true)
    (hao : env.auditOk = true)
    (hfresh : findById st.catalog (generate_backup_id BackupType.INCREMENTAL now) = none) :
    ((create_backup_incremental env st now tl).1 = .error .noChanges ↔
      (env.hasChanges = false ∧ env.currentLsn = parent.wal_lsn.getD "0/0")) ∧
    (¬ (env.hasChanges = false ∧ env.currentLsn = parent.wal_lsn.getD "0/0") →
      (create_backup_incremental env st now tl).1 =
        .ok (generate_backup_id BackupType.INCREMENTAL now) ∧
      incrRecord env parent.backup_id now tl ∈
        (create_backup_incremental env st now tl).2.catalog) := by
  by_cases hnc : env.hasChanges = false ∧ env.currentLsn = parent.wal_lsn.getD "0/0"
  · constructor
    · exact ⟨fun _ => hnc, fun _ => by
        simp only [create_backup_incremental, hlt, hpg,
          if_neg (by simp : ¬ (true = false)), hlo, if_pos hnc]⟩
    · intro hn
      exact absurd hnc hn
  · have hc3 : ¬ (env.repositoryExists = true ∧ env.changedFilesNonempty = true ∧
        env.archiveOk = false) := by
      rintro ⟨-, -, hx⟩
      rw [harch] at hx
      cases hx
    have hccok : catalogCreate st.catalog (incrRecord env parent.backup_id now tl) =
        .ok (st.catalog ++ [incrRecord env parent.backup_id now tl]) := by
      refine catalogCreate_incr_ok rfl rfl hfresh
        ⟨parent, findById_of_mem hnodup (latestInTimeline_mem hlt).1, ?_⟩
      exact (latestInTimeline_mem hlt).2
    have hstep : create_backup_incremental env st now tl =
        commitAndAudit env.commitOk env.auditOk
          (addFiles (addDir st (generate_backup_id BackupType.INCREMENTAL now))
            (generate_backup_id BackupType.INCREMENTAL now)
            (env.repositoryExists && env.changedFilesNonempty))
          (incrRecord env parent.backup_id now tl) := by
      simp only [create_backup_incremental, hlt, hpg,
        if_neg (by simp : ¬ (true = false)), hlo, if_neg hnc, hwf,
        if_neg (by simp : ¬ (true = false)), if_neg hc3]
    have hst2cat : (addFiles (addDir st (generate_backup_id BackupType.INCREMENTAL now))
        (generate_backup_id BackupType.INCREMENTAL now)
        (env.repositoryExists && env.changedFilesNonempty)).catalog = st.catalog := by
      rw [addFiles_catalog, addDir_catalog]
    have hfinal := commitAndAudit_success
      (addFiles (addDir st (generate_backup_id BackupType.INCREMENTAL now))
        (generate_backup_id BackupType.INCREMENTAL now)
        (env.repositoryExists && env.changedFilesNonempty))
      (incrRecord env parent.backup_id now tl) (by rw [hst2cat]; exact hccok)
    rw [hco, hao] at hstep
    rw [hstep, hfinal]
    refine ⟨⟨fun hx => ?_, fun hx => absurd hx hnc⟩, fun _ => ⟨rfl, ?_⟩⟩
    · exact Except.noConfusion hx
    · rw [hst2cat]
      exact List.mem_append.mpr (Or.inr (List.mem_singleton.mpr rfl))

/-- Witness for the C6 theorem: on the catalog holding only the FULL
backup `b1` (whose `wal_lsn` is null), the idle environment (no activity,
LSN still the `0/0` default) fails with the no-changes error, and the
active environment creates `BK_INCR_7`. -/
theorem incremental_no_changes_exactly_witness :
    ((create_backup_incremental envIncrIdle st1c 7 1).1 = .error .noChanges ↔
      (envIncrIdle.hasChanges = false ∧ envIncrIdle.currentLsn = b1.wal_lsn.getD "0/0")) ∧
    (¬ (envIncrOk.hasChanges = false ∧ envIncrOk.currentLsn = b1.wal_lsn.getD "0/0") →
      (create_backup_incremental envIncrOk st1c 7 1).1 =
        .ok (generate_backup_id BackupType.INCREMENTAL 7) ∧
      incrRecord envIncrOk b1.backup_id 7 1 ∈
        (create_backup_incremental envIncrOk st1c 7 1).2.catalog) :=
  ⟨(incremental_no_changes_exactly envIncrIdle st1c 7 1 b1 (by decide) (by decide)
      (by decide) rfl rfl rfl rfl rfl (by decide)).1,
   (incremental_no_changes_exactly envIncrOk st1c 7 1 b1 (by decide) (by decide)
      (by decide) rfl rfl rfl rfl rfl (by decide)).2⟩

/-- C5 counterexample: (i) with every step succeeding except the
post-commit audit logging, the creation reports an error yet the freshly
committed record stays in the catalog while its artifact directory is
deleted; (ii) a successful FULL creation with no content tree commits a
record although no content archive exists — no artifact non-emptiness is
ever verified. -/
theorem create_record_persists_after_audit_failure_cex :
    ((create_backup_full envAuditFail st0 7 1).1 = .error .auditFailure ∧
     (create_backup_full envAuditFail st0 7 1).2.catalog = [fullRecord envAuditFail 7 1] ∧
     (create_backup_full envAuditFail st0 7 1).2.dirs = []) ∧
    ((create_backup_full envNoRepo st0 7 1).1 = .ok "BK_FULL_7" ∧
     (create_backup_full envNoRepo st0 7 1).2.catalog = [fullRecord envNoRepo 7 1] ∧
     (create_backup_full envNoRepo st0 7 1).2.filesArtifacts = []) :=
  ⟨⟨rfl, rfl, rfl⟩, ⟨rfl, rfl, rfl⟩⟩

/-- C5 (amended): on failure at any step before the catalog commit, the
artifact directory is deleted, the error is propagated and the catalog is
untouched; a record is committed only once the database (and, when a
content tree exists, archiving) steps have succeeded — with no check that
the artifacts are non-empty; a failure *after* the commit (audit-trail
logging) deletes the artifact directory while the committed record stays
in the catalog. -/
theorem create_failure_containment
    (envF : CreateEnv) (envI : IncrEnv) (stF stI : SysState) (nowF tlF nowI tlI : Nat)
    (hcleanI : generate_backup_id BackupType.INCREMENTAL nowI ∉ stI.dirs) :
    (∀ e, (create_backup_full envF stF nowF tlF).1 = .error e →
       generate_backup_id BackupType.FULL nowF ∉ (create_backup_full envF stF nowF tlF).2.dirs ∧
       (envF.auditOk = true → (create_backup_full envF stF nowF tlF).2.catalog = stF.catalog) ∧
       (e = .auditFailure →
         (create_backup_full envF stF nowF tlF).2.catalog =
           stF.catalog ++ [fullRecord envF nowF tlF])) ∧
    ((create_backup_full envF stF nowF tlF).1 = .ok (generate_backup_id BackupType.FULL nowF) →
       envF.engineOk = true ∧ (envF.repositoryExists = true → envF.archiveOk = true) ∧
       (create_backup_full envF stF nowF tlF).2.catalog =
         stF.catalog ++ [fullRecord envF nowF tlF]) ∧
    (∀ e, (create_backup_incremental envI stI nowI tlI).1 = .error e →
       generate_backup_id BackupType.INCREMENTAL nowI ∉
         (create_backup_incremental envI stI nowI tlI).2.dirs ∧
       (envI.auditOk = true →
         (create_backup_incremental envI stI nowI tlI).2.catalog = stI.catalog)) ∧
    ((create_backup_incremental envI stI nowI tlI).1 =
        .ok (generate_backup_id BackupType.INCREMENTAL nowI) →
       envI.pgdataConfigured = true ∧ envI.walFilesPresent = true ∧
       ∃ parent, latestInTimeline stI.catalog tlI = some parent ∧
         (create_backup_incremental envI stI nowI tlI).2.catalog =
           stI.catalog ++ [incrRecord envI parent.backup_id nowI tlI]) := by
  refine ⟨?_, ?_, ?_, ?_⟩
  · intro e he
    rcases create_backup_full_cases envF stF nowF tlF with
      ⟨e', h1, h2, h3a, h4⟩ | ⟨h1, h2, h3, h4, h5, h6, h7⟩
    · have hee : e = e' := by
        rw [he] at h1
        exact Except.error.inj h1
      subst hee
      refine ⟨h2, ?_, ?_⟩
      · intro haoT
        rcases h4 with ⟨hea, _⟩ | ⟨_, hcat⟩
        · rw [h3a hea] at haoT
          cases haoT
        · exact hcat
      · intro hea
        rcases h4 with ⟨_, hcat⟩ | ⟨hne, _⟩
        · exact hcat
        · exact absurd hea hne
    · rw [he] at h1
      exact Except.noConfusion h1
  · intro hok
    rcases create_backup_full_cases envF stF nowF tlF with
      ⟨e', h1, _, _, _⟩ | ⟨h1, h2, h3, h4, _, _, _⟩
    · rw [hok] at h1
      exact Except.noConfusion h1
    · exact ⟨h3, h4, h2⟩
  · intro e he
    rcases create_backup_incremental_cases envI stI nowI tlI with ⟨heq, _⟩ | ⟨parent, hlt, hrest⟩
    · rw [heq]
      exact ⟨hcleanI, fun _ => rfl⟩
    · rcases hrest with ⟨e', h1, h2, h3a, h4⟩ | ⟨h1, _, _, _, _, _, _⟩
      · have hee : e = e' := by
          rw [he] at h1
          exact Except.error.inj h1
        subst hee
        refine ⟨h2, fun haoT => ?_⟩
        rcases h4 with ⟨hea, _⟩ | ⟨_, hcat⟩
        · rw [h3a hea] at haoT
          cases haoT
        · exact hcat
      · rw [he] at h1
        exact Except.noConfusion h1
  · intro hok
    rcases create_backup_incremental_cases envI stI nowI tlI with ⟨heq, _⟩ | ⟨parent, hlt, hrest⟩
    · rw [heq] at hok
      exact Except.noConfusion hok
    · rcases hrest with ⟨e', h1, _, _, _⟩ | ⟨h1, h2, h3, h4, _, _, _⟩
      · rw [hok] at h1
        exact Except.noConfusion h1
      · exact ⟨h3, h4, parent, hlt, h2⟩

/-- Witness for the amended C5 theorem at the empty installation, with
the audit-failing FULL environment and the all-succeeding INCREMENTAL
environment. -/
theorem create_failure_containment_witness :
    generate_backup_id BackupType.INCREMENTAL 7 ∉ st0.dirs ∧
    ((∀ e, (create_backup_full envAuditFail st0 7 1).1 = .error e →
       generate_backup_id BackupType.FULL 7 ∉ (create_backup_full envAuditFail st0 7 1).2.dirs ∧
       (envAuditFail.auditOk = true →
         (create_backup_full envAuditFail st0 7 1).2.catalog = st0.catalog) ∧
       (e = .auditFailure →
         (create_backup_full envAuditFail st0 7 1).2.catalog =
           st0.catalog ++ [fullRecord envAuditFail 7 1])) ∧
     ((create_backup_full envAuditFail st0 7 1).1 = .ok (generate_backup_id BackupType.FULL 7) →
       envAuditFail.engineOk = true ∧
       (envAuditFail.repositoryExists = true → envAuditFail.archiveOk = true) ∧
       (create_backup_full envAuditFail st0 7 1).2.catalog =
         st0.catalog ++ [fullRecord envAuditFail 7 1]) ∧
     (∀ e, (create_backup_incremental envIncrOk st0 7 1).1 = .error e →
       generate_backup_id BackupType.INCREMENTAL 7 ∉
         (create_backup_incremental envIncrOk st0 7 1).2.dirs ∧
       (envIncrOk.auditOk = true →
         (create_backup_incremental envIncrOk st0 7 1).2.catalog = st0.catalog)) ∧
     ((create_backup_incremental envIncrOk st0 7 1).1 =
        .ok (generate_backup_id BackupType.INCREMENTAL 7) →
       envIncrOk.pgdataConfigured = true ∧ envIncrOk.walFilesPresent = true ∧
       ∃ parent, latestInTimeline st0.catalog 1 = some parent ∧
         (create_backup_incremental envIncrOk st0 7 1).2.catalog =
           st0.catalog ++ [incrRecord envIncrOk parent.backup_id 7 1])) :=
  ⟨by decide, create_failure_containment envAuditFail envIncrOk st0 st0 7 1 7 1 (by decide)⟩

/-- C9: a creation whose derived id (type plus second-granularity
timestamp) already exists in the catalog fails — the modelled unique-id
constraint rejects the commit with the duplicate-id error — and the
catalog is exactly what it was: no silent overwrite, no dedup.  The
third conjunct states the rejection for any record with a taken id, as
both branches commit through the same catalog insert. -/
theorem duplicate_id_create_rejected
    (env : CreateEnv) (st : SysState) (now tl : Nat)
    (hdup : (findById st.catalog (generate_backup_id BackupType.FULL now)).isSome = true)
    (heng : env.engineOk = true)
    (harch : env.repositoryExists = true → env.archiveOk = true)
    (hco : env.commitOk = true) :
    (create_backup_full env st now tl).1 = .error .duplicateId ∧
    (create_backup_full env st now tl).2.catalog = st.catalog ∧
    (∀ r : BackupRecord, (findById st.catalog r.backup_id).isSome = true →
      catalogCreate st.catalog r = .error .duplicateId) := by
  have hc2 : ¬ (env.repositoryExists = true ∧ env.archiveOk = false) := by
    rintro ⟨hre, hx⟩
    rw [harch hre] at hx
    cases hx
  have hdup2 : (findById (addFiles (addDir st (generate_backup_id BackupType.FULL now))
      (generate_backup_id BackupType.FULL now) env.repositoryExists).catalog
      (fullRecord env now tl).backup_id).isSome = true := by
    rw [addFiles_catalog, addDir_catalog]
    exact hdup
  have hcc := catalogCreate_dup hdup2
  have hstep : create_backup_full env st now tl =
      commitAndAudit env.commitOk env.auditOk
        (addFiles (addDir st (generate_backup_id BackupType.FULL now))
          (generate_backup_id BackupType.FULL now) env.repositoryExists)
        (fullRecord env now tl) := by
    simp only [create_backup_full, heng, if_neg (by simp : ¬ (true = false)), if_neg hc2]
  have hca : commitAndAudit true env.auditOk
      (addFiles (addDir st (generate_backup_id BackupType.FULL now))
        (generate_backup_id BackupType.FULL now) env.repositoryExists)
      (fullRecord env now tl) =
      (.error .duplicateId,
        cleanupDir (addFiles (addDir st (generate_backup_id BackupType.FULL now))
          (generate_backup_id BackupType.FULL now) env.repositoryExists)
          (fullRecord env now tl).backup_id) := by
    simp only [commitAndAudit, if_neg (by simp : ¬ (true = false)), hcc]
  rw [hstep, hco, hca]
  exact ⟨rfl, by rw [cleanupDir_catalog, addFiles_catalog, addDir_catalog],
    fun r h => catalogCreate_dup h⟩

/-- Witness for the C9 theorem: a FULL backup at second 7 already exists
(`stDup`), and a second FULL creation at second 7 is rejected with the
catalog intact. -/
theorem duplicate_id_create_rejected_witness :
    (findById stDup.catalog (generate_backup_id BackupType.FULL 7)).isSome = true ∧
    ((create_backup_full envFullOk stDup 7 1).1 = .error .duplicateId ∧
     (create_backup_full envFullOk stDup 7 1).2.catalog = stDup.catalog ∧
     (∀ r : BackupRecord, (findById stDup.catalog r.backup_id).isSome = true →
       catalogCreate stDup.catalog r = .error .duplicateId)) :=
  ⟨by decide, duplicate_id_create_rejected envFullOk stDup 7 1 (by decide) rfl
    (fun _ => rfl) rfl⟩

/-- C10: neither creation branch ever assigns `wal_lsn` (the `Backup`
constructor call omits it), so every record a creation adds carries a
null `wal_lsn`; consequently a later incremental reads the position of
the parent as the `0/0` default, and with any real (not `0/0`) LSN
reported by the engine the unchanged-position comparison is false — the
no-changes error cannot fire. -/
theorem created_records_wal_lsn_null
    (envF : CreateEnv) (envI : IncrEnv) (st : SysState) (now tl : Nat)
    (parent : BackupRecord)
    (hlo : latestOverall st.catalog = some parent)
    (hplsn : parent.wal_lsn = none)
    (hreal : envI.currentLsn ≠ "0/0") :
    (∀ r ∈ (create_backup_full envF st now tl).2.catalog, r ∈ st.catalog ∨ r.wal_lsn = none) ∧
    (∀ r ∈ (create_backup_incremental envI st now tl).2.catalog,
       r ∈ st.catalog ∨ r.wal_lsn = none) ∧
    parent.wal_lsn.getD "0/0" = "0/0" ∧
    (create_backup_incremental envI st now tl).1 ≠ .error .noChanges := by
  have hget : parent.wal_lsn.getD "0/0" = "0/0" := by
    rw [hplsn]
    rfl
  refine ⟨?_, ?_, hget, ?_⟩
  · intro r hr
    rcases create_backup_full_cases envF st now tl with
      ⟨e, _, _, _, h4⟩ | ⟨_, h2, _, _, _, _, _⟩
    · rcases h4 with ⟨_, hcat⟩ | ⟨_, hcat⟩
      · rw [hcat] at hr
        rcases List.mem_append.mp hr with h | h
        · exact Or.inl h
        · exact Or.inr (by rw [List.mem_singleton.mp h]; rfl)
      · rw [hcat] at hr
        exact Or.inl hr
    · rw [h2] at hr
      rcases List.mem_append.mp hr with h | h
      · exact Or.inl h
      · exact Or.inr (by rw [List.mem_singleton.mp h]; rfl)
  · intro r hr
    rcases create_backup_incremental_cases envI st now tl with ⟨heq, _⟩ | ⟨p, hlt, hrest⟩
    · rw [heq] at hr
      exact Or.inl hr
    · rcases hrest with ⟨e, _, _, _, h4⟩ | ⟨_, h2, _, _, _, _, _⟩
      · rcases h4 with ⟨_, hcat⟩ | ⟨_, hcat⟩
        · rw [hcat] at hr
          rcases List.mem_append.mp hr with h | h
          · exact Or.inl h
          · exact Or.inr (by rw [List.mem_singleton.mp h]; rfl)
        · rw [hcat] at hr
          exact Or.inl hr
      · rw [h2] at hr
        rcases List.mem_append.mp hr with h | h
        · exact Or.inl h
        · exact Or.inr (by rw [List.mem_singleton.mp h]; rfl)
  · intro hnc
    obtain ⟨last, hlast, _, hlsn⟩ := create_backup_incremental_noChanges envI st now tl hnc
    rw [hlo] at hlast
    injection hlast with hlast
    subst hlast
    rw [hget] at hlsn
    exact hreal hlsn

/-- Witness for the C10 theorem on the catalog holding only `b1`. -/
theorem created_records_wal_lsn_null_witness :
    latestOverall st1c.catalog = some b1 ∧
    b1.wal_lsn = none ∧
    envIncrOk.currentLsn ≠ "0/0" ∧
    ((∀ r ∈ (create_backup_full envFullOk st1c 7 1).2.catalog,
        r ∈ st1c.catalog ∨ r.wal_lsn = none) ∧
     (∀ r ∈ (create_backup_incremental envIncrOk st1c 7 1).2.catalog,
        r ∈ st1c.catalog ∨ r.wal_lsn = none) ∧
     b1.wal_lsn.getD "0/0" = "0/0" ∧
     (create_backup_incremental envIncrOk st1c 7 1).1 ≠ .error .noChanges) :=
  ⟨by decide, rfl, by decide,
    created_records_wal_lsn_null envFullOk envIncrOk st1c 7 1 b1 (by decide) rfl (by decide)⟩

/-! Part: Claim theorem about restore rollback -/

/-- C1: at the failing input — a FULL-target restore in which every
bounded connection attempt fails after the service start — the branch
answers 500 connection-failed from the
innermost handler: the side-location snapshot is *not* copied back
(`rolledBack = false`) and the data directory still holds the freshly
extracted backup instead of the pre-restore state; by contrast the
INCREMENTAL branch at the same failure does restore the snapshot and
restart the service.  The rollback the claim requires does not happen on
the FULL path, and no `RestoreFailedRolledBack`-style discrimination is
reported on either path. -/
theorem restore_full_conn_failure_no_rollback :
    restore_backup_full
        { logsDirOk := true, manifestOk := true, baseFileExists := true
        , resetWalOk := true, connOk := false } "BK_FULL_7" =
      { httpStatus := 500
      , errorMsg := some "Restore completed but database connection failed"
      , rolledBack := false, dataDir := .restoredFrom "BK_FULL_7" } ∧
    restore_backup_incremental_verify false "B3" =
      { httpStatus := 500, errorMsg := some "Failed connection after maximum retries"
      , rolledBack := true, dataDir := .original } :=
  ⟨rfl, rfl⟩

end ResearchRepo
